import Mathlib

/-!
# Verification of the Rendering repository's spatial-partition core and demo glue

This development embeds, in Lean 4, the parts of the repository that the
frozen claims speak about:

* the spatial acceleration structure builder (`build_bsp_tree` and the
  recursive `build` routine).  The builder itself is not present among the
  source files (the files only call it), so it is modelled from the
  specification text (§4.1-§4.2 of the spec): bounding-volume computation,
  longest-axis split selection with x/y/z tie-break, midpoint split position,
  inclusive boundary classification with duplication, termination policy and
  degenerate-split guard;
* the per-demo JavaScript glue that the remaining claims are about: the
  material-color tables (`matColors` loops), the bind-group entry lists, the
  order of construction versus the first draw call, the progressive
  accumulation frame logic, `computeJitters`, and the `Float32Array` /
  `Uint32Array` writes to the UI uniform buffer.

Scalars that are IEEE doubles in JavaScript are modelled as rationals; the
byte-level `Float32Array` claim is modelled with an exact IEEE-754 binary32
encoder on natural numbers.
-/

namespace Rendering

/-- A point in 3D space; JS `vec3`-style triples of scalars. -/
structure Vec3 where
  x : ℚ
  y : ℚ
  z : ℚ
deriving DecidableEq, Repr

/-- The three coordinate axes, in the spec's deterministic preference order. -/
inductive Axis where
  | x
  | y
  | z
deriving DecidableEq, Repr

/-- Component of a vector along an axis. -/
def Vec3.getA (v : Vec3) : Axis → ℚ
  | .x => v.x
  | .y => v.y
  | .z => v.z

/-- Modelled from the spec: an axis-aligned bounding box, "a min corner and
max corner in 3D space" (§3). -/
structure AABB where
  min : Vec3
  max : Vec3
deriving DecidableEq, Repr

/-- Componentwise union of two boxes (the box enclosing both). -/
def boxUnion (b c : AABB) : AABB :=
  { min := ⟨min b.min.x c.min.x, min b.min.y c.min.y, min b.min.z c.min.z⟩
    max := ⟨max b.max.x c.max.x, max b.max.y c.max.y, max b.max.z c.max.z⟩ }

/-- Extent of a box along an axis. -/
def AABB.extent (b : AABB) (a : Axis) : ℚ :=
  b.max.getA a - b.min.getA a

/-- Modelled from the spec: a triangle mesh, "ordered sequence of vertex
positions, ordered sequence of index triples (3 unsigned integers each,
referencing positions)" (§3). -/
structure Mesh where
  positions : List Vec3
  indices : List (Nat × Nat × Nat)
deriving DecidableEq, Repr

/-- Vertex lookup; out-of-range indices give the origin (never reached on
well-formed meshes). -/
def Mesh.vert (m : Mesh) (i : Nat) : Vec3 :=
  m.positions.getD i ⟨0, 0, 0⟩

/-- The bounding box of a single triangle: the componentwise min/max of its
three vertices. -/
def triBox (m : Mesh) (t : Nat) : AABB :=
  let ijk := m.indices.getD t (0, 0, 0)
  let p := m.vert ijk.1
  let q := m.vert ijk.2.1
  let r := m.vert ijk.2.2
  { min := ⟨min p.x (min q.x r.x), min p.y (min q.y r.y), min p.z (min q.z r.z)⟩
    max := ⟨max p.x (max q.x r.x), max p.y (max q.y r.y), max p.z (max q.z r.z)⟩ }

/-- Modelled from the spec: `computeAABB(triangleIndices, positions)`, "the
tight axis-aligned box enclosing every vertex of every referenced triangle";
the empty set returns the designated empty box (§4.1, "not used for
splitting"). -/
def computeAABB (m : Mesh) : List Nat → AABB
  | [] => { min := ⟨0, 0, 0⟩, max := ⟨0, 0, 0⟩ }
  | t :: ts => ts.foldl (fun b u => boxUnion b (triBox m u)) (triBox m t)

/-- Modelled from the spec: split-axis selection, "choose the axis along which
the current bounding box has the greatest extent ... on exact ties, prefer x,
then y, then z" (§4.2 step 2). -/
def pickAxis (b : AABB) : Axis :=
  if b.extent .y ≤ b.extent .x ∧ b.extent .z ≤ b.extent .x then .x
  else if b.extent .z ≤ b.extent .y then .y
  else .z

/-- Modelled from the spec: a partition node, "either an internal node -
holding a split axis, a split position and two child references - or a leaf
node - holding a set of triangle indices" (§3). -/
inductive PNode where
  | leaf (ids : List Nat)
  | node (axis : Axis) (pos : ℚ) (left right : PNode)
deriving DecidableEq, Repr

/-- Modelled from the spec: the policy constant for the leaf-size threshold,
"a fixed small threshold (policy constant, e.g. ≤ a handful of triangles)"
(§4.2 step 1). -/
def bspLeafCap : Nat := 4

/-- Modelled from the spec: the fixed maximum recursion depth (§4.2 step 1). -/
def bspMaxDepth : Nat := 20

/-- Modelled from the spec: `build(triangleIndices, boundingBox, depth)`
(§4.2), parameterised over the two policy constants `cap` (leaf-size
threshold) and `maxD` (maximum depth):
1. termination policy: leaf when the set is small or the depth limit is hit;
2. longest-axis split selection (`pickAxis`);
3. midpoint split position;
4. inclusive classification: a triangle goes left when any part of its box
   lies at or below the split position, right when any part lies at or above
   it (straddlers go to both children);
5. degenerate-split guard: when one child receives the entire set, emit a
   leaf with the full set;
6. recursion into both children with recomputed bounding boxes. -/
def buildP (cap maxD : Nat) (m : Mesh) (tris : List Nat) (bbox : AABB)
    (depth : Nat) : PNode :=
  if h : tris.length ≤ cap ∨ maxD ≤ depth then .leaf tris
  else
    let a := pickAxis bbox
    let pos := (bbox.min.getA a + bbox.max.getA a) / 2
    let lTris := tris.filter fun t => (triBox m t).min.getA a ≤ pos
    let rTris := tris.filter fun t => pos ≤ (triBox m t).max.getA a
    if lTris.length = tris.length ∨ rTris.length = tris.length then .leaf tris
    else
      .node a pos (buildP cap maxD m lTris (computeAABB m lTris) (depth + 1))
        (buildP cap maxD m rTris (computeAABB m rTris) (depth + 1))
termination_by maxD - depth
decreasing_by
  all_goals omega

/-- The builder with the repository's policy constants. -/
def build (m : Mesh) (tris : List Nat) (bbox : AABB) (depth : Nat) : PNode :=
  buildP bspLeafCap bspMaxDepth m tris bbox depth

/-- Triangle `t` appears in the triangle-id list of some leaf of the tree. -/
def inLeaf (t : Nat) : PNode → Prop
  | .leaf ids => t ∈ ids
  | .node _ _ l r => inLeaf t l ∨ inLeaf t r

/-- Number of nodes of a partition tree. -/
def nodeCount : PNode → Nat
  | .leaf _ => 1
  | .node _ _ l r => 1 + nodeCount l + nodeCount r

/-- The per-leaf triangle-id lists, in left-to-right leaf order. -/
def leafLists : PNode → List (List Nat)
  | .leaf ids => [ids]
  | .node _ _ l r => leafLists l ++ leafLists r

theorem getA_boxUnion_min (b c : AABB) (a : Axis) :
    (boxUnion b c).min.getA a = min (b.min.getA a) (c.min.getA a) := by
  cases a <;> rfl

theorem getA_boxUnion_max (b c : AABB) (a : Axis) :
    (boxUnion b c).max.getA a = max (b.max.getA a) (c.max.getA a) := by
  cases a <;> rfl

theorem triBox_min_le_max (m : Mesh) (t : Nat) (a : Axis) :
    (triBox m t).min.getA a ≤ (triBox m t).max.getA a := by
  cases a <;>
    simp only [triBox, Vec3.getA] <;>
    exact le_trans (min_le_left _ _) (le_max_left _ _)

theorem foldl_boxUnion_min_le (m : Mesh) (ts : List Nat) (b : AABB) (a : Axis) :
    ((ts.foldl (fun b u => boxUnion b (triBox m u)) b)).min.getA a ≤
      b.min.getA a := by
  induction ts generalizing b with
  | nil => simp
  | cons u us ih =>
      refine le_trans (ih (boxUnion b (triBox m u))) ?_
      rw [getA_boxUnion_min]
      exact min_le_left _ _

theorem le_foldl_boxUnion_max (m : Mesh) (ts : List Nat) (b : AABB) (a : Axis) :
    b.max.getA a ≤
      ((ts.foldl (fun b u => boxUnion b (triBox m u)) b)).max.getA a := by
  induction ts generalizing b with
  | nil => simp
  | cons u us ih =>
      refine le_trans ?_ (ih (boxUnion b (triBox m u)))
      rw [getA_boxUnion_max]
      exact le_max_left _ _

theorem foldl_boxUnion_min_le_mem (m : Mesh) (ts : List Nat) (b : AABB)
    (a : Axis) (t : Nat) (ht : t ∈ ts) :
    ((ts.foldl (fun b u => boxUnion b (triBox m u)) b)).min.getA a ≤
      (triBox m t).min.getA a := by
  induction ts generalizing b with
  | nil => cases ht
  | cons u us ih =>
      rcases List.mem_cons.mp ht with h | h
      · subst h
        refine le_trans (foldl_boxUnion_min_le m us _ a) ?_
        rw [getA_boxUnion_min]
        exact min_le_right _ _
      · exact ih _ h

theorem le_foldl_boxUnion_max_mem (m : Mesh) (ts : List Nat) (b : AABB)
    (a : Axis) (t : Nat) (ht : t ∈ ts) :
    (triBox m t).max.getA a ≤
      ((ts.foldl (fun b u => boxUnion b (triBox m u)) b)).max.getA a := by
  induction ts generalizing b with
  | nil => cases ht
  | cons u us ih =>
      rcases List.mem_cons.mp ht with h | h
      · subst h
        refine le_trans ?_ (le_foldl_boxUnion_max m us _ a)
        rw [getA_boxUnion_max]
        exact le_max_right _ _
      · exact ih _ h

/-- The recomputed bounding box of a triangle set encloses each member
triangle's box (lower side). -/
theorem computeAABB_min_le (m : Mesh) (tris : List Nat) (t : Nat)
    (ht : t ∈ tris) (a : Axis) :
    (computeAABB m tris).min.getA a ≤ (triBox m t).min.getA a := by
  cases tris with
  | nil => cases ht
  | cons u us =>
      rcases List.mem_cons.mp ht with h | h
      · subst h
        exact foldl_boxUnion_min_le m us _ a
      · exact foldl_boxUnion_min_le_mem m us _ a t h

/-- The recomputed bounding box of a triangle set encloses each member
triangle's box (upper side). -/
theorem le_computeAABB_max (m : Mesh) (tris : List Nat) (t : Nat)
    (ht : t ∈ tris) (a : Axis) :
    (triBox m t).max.getA a ≤ (computeAABB m tris).max.getA a := by
  cases tris with
  | nil => cases ht
  | cons u us =>
      rcases List.mem_cons.mp ht with h | h
      · subst h
        exact le_foldl_boxUnion_max m us _ a
      · exact le_foldl_boxUnion_max_mem m us _ a t h

/-- Completeness of the builder: every triangle of the input set reaches at
least one leaf. -/
theorem inLeaf_buildP (fuel : Nat) : ∀ (cap maxD : Nat) (m : Mesh)
    (tris : List Nat) (bbox : AABB) (depth : Nat), maxD - depth ≤ fuel →
    ∀ t ∈ tris, inLeaf t (buildP cap maxD m tris bbox depth) := by
  induction fuel with
  | zero =>
      intro cap maxD m tris bbox depth hf t ht
      rw [buildP]
      have hd : maxD ≤ depth := by omega
      rw [dif_pos (Or.inr hd)]
      exact ht
  | succ n ih =>
      intro cap maxD m tris bbox depth hf t ht
      rw [buildP]
      by_cases hterm : tris.length ≤ cap ∨ maxD ≤ depth
      · rw [dif_pos hterm]; exact ht
      · rw [dif_neg hterm]
        simp only
        set a := pickAxis bbox with ha
        set pos := (bbox.min.getA a + bbox.max.getA a) / 2 with hpos
        by_cases hguard :
            (tris.filter fun t => (triBox m t).min.getA a ≤ pos).length =
              tris.length ∨
            (tris.filter fun t => pos ≤ (triBox m t).max.getA a).length =
              tris.length
        · rw [if_pos hguard]; exact ht
        · rw [if_neg hguard]
          have hdep : maxD - (depth + 1) ≤ n := by omega
          by_cases hside : (triBox m t).min.getA a ≤ pos
          · exact Or.inl (ih cap maxD m _ _ _ hdep t
              (List.mem_filter.mpr ⟨ht, by simpa using hside⟩))
          · refine Or.inr (ih cap maxD m _ _ _ hdep t
              (List.mem_filter.mpr ⟨ht, ?_⟩))
            have := triBox_min_le_max m t a
            simp only [decide_eq_true_eq]
            push_neg at hside
            linarith

/-- Inversion of the builder at an internal node: recover the split data and
the two recursive calls. -/
theorem buildP_node_inv (cap maxD : Nat) (m : Mesh) (tris : List Nat)
    (bbox : AABB) (depth : Nat) (a : Axis) (p : ℚ) (l r : PNode)
    (heq : buildP cap maxD m tris bbox depth = .node a p l r) :
    ¬(tris.length ≤ cap ∨ maxD ≤ depth) ∧
    a = pickAxis bbox ∧
    p = (bbox.min.getA a + bbox.max.getA a) / 2 ∧
    ¬((tris.filter fun t => (triBox m t).min.getA a ≤ p).length =
        tris.length ∨
      (tris.filter fun t => p ≤ (triBox m t).max.getA a).length =
        tris.length) ∧
    l = buildP cap maxD m
        (tris.filter fun t => (triBox m t).min.getA a ≤ p)
        (computeAABB m (tris.filter fun t => (triBox m t).min.getA a ≤ p))
        (depth + 1) ∧
    r = buildP cap maxD m
        (tris.filter fun t => p ≤ (triBox m t).max.getA a)
        (computeAABB m (tris.filter fun t => p ≤ (triBox m t).max.getA a))
        (depth + 1) := by
  rw [buildP] at heq
  by_cases hterm : tris.length ≤ cap ∨ maxD ≤ depth
  · rw [dif_pos hterm] at heq; cases heq
  · rw [dif_neg hterm] at heq
    simp only at heq
    by_cases hguard :
        (tris.filter fun t =>
          (triBox m t).min.getA (pickAxis bbox) ≤
            (bbox.min.getA (pickAxis bbox) + bbox.max.getA (pickAxis bbox)) / 2).length =
          tris.length ∨
        (tris.filter fun t =>
          (bbox.min.getA (pickAxis bbox) + bbox.max.getA (pickAxis bbox)) / 2 ≤
            (triBox m t).max.getA (pickAxis bbox)).length = tris.length
    · rw [if_pos hguard] at heq; cases heq
    · rw [if_neg hguard] at heq
      obtain ⟨rfl, rfl, rfl, rfl⟩ := PNode.node.inj heq
      exact ⟨hterm, rfl, rfl, hguard, rfl, rfl⟩

/-- The builder emits a leaf whenever the termination policy fires. -/
theorem buildP_term_leaf (cap maxD : Nat) (m : Mesh) (tris : List Nat)
    (bbox : AABB) (depth : Nat) (h : tris.length ≤ cap ∨ maxD ≤ depth) :
    buildP cap maxD m tris bbox depth = .leaf tris := by
  rw [buildP, dif_pos h]

/-- The builder emits a leaf with the full set when the degenerate-split
guard fires. -/
theorem buildP_guard_leaf (cap maxD : Nat) (m : Mesh) (tris : List Nat)
    (bbox : AABB) (depth : Nat)
    (hguard :
      (tris.filter fun t =>
        (triBox m t).min.getA (pickAxis bbox) ≤
          (bbox.min.getA (pickAxis bbox) + bbox.max.getA (pickAxis bbox)) / 2).length =
        tris.length ∨
      (tris.filter fun t =>
        (bbox.min.getA (pickAxis bbox) + bbox.max.getA (pickAxis bbox)) / 2 ≤
          (triBox m t).max.getA (pickAxis bbox)).length = tris.length) :
    buildP cap maxD m tris bbox depth = .leaf tris := by
  rw [buildP]
  by_cases hterm : tris.length ≤ cap ∨ maxD ≤ depth
  · rw [dif_pos hterm]
  · rw [dif_neg hterm]
    simp only
    rw [if_pos hguard]

/-- A two-triangle mesh used as a concrete instance for the witnesses. -/
def twoTriMesh : Mesh :=
  { positions := [⟨0, 0, 0⟩, ⟨1, 0, 0⟩, ⟨0, 1, 0⟩, ⟨10, 0, 0⟩, ⟨11, 0, 0⟩,
      ⟨10, 1, 0⟩]
    indices := [(0, 1, 2), (3, 4, 5)] }

/-- A mesh of `n` coincident triangles: three shared vertex positions and
`n` identical index triples. -/
def coincidentMesh (n : Nat) (p0 p1 p2 : Vec3) : Mesh :=
  { positions := [p0, p1, p2]
    indices := List.replicate n (0, 1, 2) }

theorem coincidentMesh_triBox (n : Nat) (p0 p1 p2 : Vec3) (t : Nat)
    (ht : t < n) :
    triBox (coincidentMesh n p0 p1 p2) t = triBox (coincidentMesh n p0 p1 p2) 0 := by
  have h0 : 0 < n := Nat.lt_of_le_of_lt (Nat.zero_le t) ht
  simp only [triBox, coincidentMesh, List.getD_eq_getElem?_getD,
    List.getElem?_replicate, if_pos ht, if_pos h0]

theorem foldl_boxUnion_const (m : Mesh) (B : AABB) (hB : boxUnion B B = B) :
    ∀ (ts : List Nat), (∀ u ∈ ts, triBox m u = B) →
      ts.foldl (fun b u => boxUnion b (triBox m u)) B = B := by
  intro ts
  induction ts with
  | nil => intro _; rfl
  | cons u us ih =>
      intro h
      have hu : triBox m u = B := h u (List.mem_cons_self u us)
      have hrest : ∀ v ∈ us, triBox m v = B := fun v hv =>
        h v (List.mem_cons_of_mem u hv)
      simp only [List.foldl_cons, hu, hB]
      exact ih hrest

theorem boxUnion_self (B : AABB) : boxUnion B B = B := by
  simp [boxUnion]

/-- The bounding box of any nonempty set of coincident triangles is the
shared triangle box. -/
theorem coincidentMesh_computeAABB (n : Nat) (p0 p1 p2 : Vec3) (hn : 0 < n) :
    computeAABB (coincidentMesh n p0 p1 p2) (List.range n) =
      triBox (coincidentMesh n p0 p1 p2) 0 := by
  obtain ⟨k, rfl⟩ : ∃ k, n = k + 1 := ⟨n - 1, by omega⟩
  rw [List.range_succ_eq_map]
  simp only [computeAABB]
  refine foldl_boxUnion_const _ _ (boxUnion_self _) _ ?_
  intro u hu
  obtain ⟨v, hv, rfl⟩ := List.mem_map.mp hu
  exact coincidentMesh_triBox _ p0 p1 p2 _ (by
    have := List.mem_range.mp hv; omega)

/-- **C1**: for every mesh given to the spatial partition builder, every
triangle index of the input set appears in the triangle-id list of at least
one leaf of the resulting tree; a triangle whose bounding box straddles an
internal node's split plane appears in the leaves of both children. -/
theorem claim_C1_completeness_straddle (m : Mesh) (tris : List Nat)
    (bbox : AABB) (depth : Nat) (t : Nat) (ht : t ∈ tris) :
    inLeaf t (build m tris bbox depth) ∧
    ∀ a p l r, build m tris bbox depth = .node a p l r →
      (triBox m t).min.getA a ≤ p → p ≤ (triBox m t).max.getA a →
      inLeaf t l ∧ inLeaf t r := by
  constructor
  · exact inLeaf_buildP (bspMaxDepth - depth) bspLeafCap bspMaxDepth m tris
      bbox depth le_rfl t ht
  · intro a p l r heq hlo hhi
    obtain ⟨-, -, -, -, hl, hr⟩ :=
      buildP_node_inv bspLeafCap bspMaxDepth m tris bbox depth a p l r heq
    subst hl
    subst hr
    constructor
    · exact inLeaf_buildP (bspMaxDepth - (depth + 1)) bspLeafCap bspMaxDepth m
        _ _ _ le_rfl t (List.mem_filter.mpr ⟨ht, by simpa using hlo⟩)
    · exact inLeaf_buildP (bspMaxDepth - (depth + 1)) bspLeafCap bspMaxDepth m
        _ _ _ le_rfl t (List.mem_filter.mpr ⟨ht, by simpa using hhi⟩)

/-- Witness for C1 at a concrete two-triangle mesh. -/
theorem claim_C1_witness :
    0 ∈ [0, 1] ∧
    (inLeaf 0 (build twoTriMesh [0, 1] (computeAABB twoTriMesh [0, 1]) 0) ∧
    ∀ a p l r,
      build twoTriMesh [0, 1] (computeAABB twoTriMesh [0, 1]) 0 = .node a p l r →
      (triBox twoTriMesh 0).min.getA a ≤ p →
      p ≤ (triBox twoTriMesh 0).max.getA a →
      inLeaf 0 l ∧ inLeaf 0 r) :=
  ⟨by decide,
    claim_C1_completeness_straddle twoTriMesh [0, 1]
      (computeAABB twoTriMesh [0, 1]) 0 0 (by decide)⟩

/-- **C2**: the recursion is total (the Lean model is a total function), a
leaf is emitted whenever the triangle count is at or below the threshold or
the depth reaches the maximum, a leaf with the full set is emitted when one
child receives the entire set, and a mesh of `n` coincident triangles yields
a single leaf holding all `n` triangle indices. -/
theorem claim_C2_termination (m : Mesh) (tris : List Nat) (bbox : AABB)
    (depth : Nat) :
    (tris.length ≤ bspLeafCap ∨ bspMaxDepth ≤ depth →
      build m tris bbox depth = .leaf tris) ∧
    (((tris.filter fun t =>
        (triBox m t).min.getA (pickAxis bbox) ≤
          (bbox.min.getA (pickAxis bbox) + bbox.max.getA (pickAxis bbox)) / 2).length =
        tris.length ∨
      (tris.filter fun t =>
        (bbox.min.getA (pickAxis bbox) + bbox.max.getA (pickAxis bbox)) / 2 ≤
          (triBox m t).max.getA (pickAxis bbox)).length = tris.length) →
      build m tris bbox depth = .leaf tris) ∧
    ∀ n p0 p1 p2, 0 < n →
      build (coincidentMesh n p0 p1 p2) (List.range n)
        (computeAABB (coincidentMesh n p0 p1 p2) (List.range n)) 0 =
        .leaf (List.range n) := by
  refine ⟨buildP_term_leaf bspLeafCap bspMaxDepth m tris bbox depth,
    buildP_guard_leaf bspLeafCap bspMaxDepth m tris bbox depth, ?_⟩
  intro n p0 p1 p2 hn
  set cm := coincidentMesh n p0 p1 p2 with hcm
  set B0 := triBox cm 0 with hB0
  have hbox : computeAABB cm (List.range n) = B0 :=
    coincidentMesh_computeAABB n p0 p1 p2 hn
  rw [hbox]
  set a := pickAxis B0 with ha
  apply buildP_guard_leaf
  left
  congr 1
  apply List.filter_eq_self.mpr
  intro t htmem
  have htn : t < n := List.mem_range.mp htmem
  have heqbox : triBox cm t = B0 := coincidentMesh_triBox n p0 p1 p2 t htn
  rw [heqbox]
  simp only [decide_eq_true_eq]
  have h1 := triBox_min_le_max cm 0 a
  rw [← hB0] at h1
  linarith

/-- Witness for C2 at a concrete coincident mesh. -/
theorem claim_C2_witness :
    (0 : Nat) < 7 ∧
    build (coincidentMesh 7 ⟨0, 0, 0⟩ ⟨1, 0, 0⟩ ⟨0, 1, 0⟩) (List.range 7)
      (computeAABB (coincidentMesh 7 ⟨0, 0, 0⟩ ⟨1, 0, 0⟩ ⟨0, 1, 0⟩)
        (List.range 7)) 0 =
      .leaf (List.range 7) :=
  ⟨by decide,
    (claim_C2_termination (coincidentMesh 7 ⟨0, 0, 0⟩ ⟨1, 0, 0⟩ ⟨0, 1, 0⟩)
      [] ⟨⟨0, 0, 0⟩, ⟨0, 0, 0⟩⟩ 0).2.2 7 ⟨0, 0, 0⟩ ⟨1, 0, 0⟩ ⟨0, 1, 0⟩
      (by decide)⟩

/-- The chosen axis maximises the extent. -/
theorem extent_pickAxis_ge (b : AABB) : ∀ a2, b.extent a2 ≤ b.extent (pickAxis b) := by
  intro a2
  unfold pickAxis
  split_ifs with h1 h2
  · obtain ⟨hy, hz⟩ := h1
    cases a2
    · exact le_rfl
    · exact hy
    · exact hz
  · push_neg at h1
    have hxy : b.extent .x < b.extent .y := by
      rcases le_or_lt (b.extent .y) (b.extent .x) with h | h
      · have := h1 h
        linarith
      · exact h
    cases a2
    · exact le_of_lt hxy
    · exact le_rfl
    · exact h2
  · push_neg at h1 h2
    have hxz : b.extent .x < b.extent .z := by
      rcases le_or_lt (b.extent .y) (b.extent .x) with h | h
      · exact h1 h
      · linarith
    cases a2
    · exact le_of_lt hxz
    · exact le_of_lt h2
    · exact le_rfl

/-- The y axis is only chosen when its extent strictly beats x. -/
theorem pickAxis_eq_y (b : AABB) (h : pickAxis b = .y) :
    b.extent .x < b.extent .y := by
  unfold pickAxis at h
  split_ifs at h with h1 h2
  push_neg at h1
  rcases le_or_lt (b.extent .y) (b.extent .x) with hle | hlt
  · have := h1 hle
    linarith
  · exact hlt

/-- The z axis is only chosen when its extent strictly beats x and y. -/
theorem pickAxis_eq_z (b : AABB) (h : pickAxis b = .z) :
    b.extent .x < b.extent .z ∧ b.extent .y < b.extent .z := by
  unfold pickAxis at h
  split_ifs at h with h1 h2
  push_neg at h1 h2
  refine ⟨?_, h2⟩
  rcases le_or_lt (b.extent .y) (b.extent .x) with hle | hlt
  · exact h1 hle
  · linarith

theorem exists_not_of_filter_length_ne {α : Type} (l : List α) (p : α → Bool)
    (h : (l.filter p).length ≠ l.length) : ∃ x ∈ l, p x = false := by
  by_contra hc
  push_neg at hc
  apply h
  rw [List.filter_eq_self.mpr]
  intro a ha
  cases hpa : p a
  · exact absurd hpa (hc a ha)
  · rfl

/-- The split-validity property of claim C3, stated against each node's own
(recomputed) bounding box: the chosen axis has the greatest extent with the
x-then-y-then-z tie-break, the split position is the midpoint, and it lies
strictly inside the box's extent along the chosen axis. -/
def SplitOK (m : Mesh) : PNode → List Nat → Prop
  | .leaf _, _ => True
  | .node a p l r, tris =>
      (∀ a2, (computeAABB m tris).extent a2 ≤ (computeAABB m tris).extent a) ∧
      (a = .y →
        (computeAABB m tris).extent .x < (computeAABB m tris).extent .y) ∧
      (a = .z →
        (computeAABB m tris).extent .x < (computeAABB m tris).extent .z ∧
        (computeAABB m tris).extent .y < (computeAABB m tris).extent .z) ∧
      p = ((computeAABB m tris).min.getA a + (computeAABB m tris).max.getA a) / 2 ∧
      (computeAABB m tris).min.getA a < p ∧ p < (computeAABB m tris).max.getA a ∧
      SplitOK m l (tris.filter fun t => (triBox m t).min.getA a ≤ p) ∧
      SplitOK m r (tris.filter fun t => p ≤ (triBox m t).max.getA a)

theorem splitOK_buildP (fuel : Nat) : ∀ (cap maxD : Nat) (m : Mesh)
    (tris : List Nat) (depth : Nat), maxD - depth ≤ fuel →
    SplitOK m (buildP cap maxD m tris (computeAABB m tris) depth) tris := by
  induction fuel with
  | zero =>
      intro cap maxD m tris depth hf
      rw [buildP, dif_pos (Or.inr (by omega))]
      trivial
  | succ n ih =>
      intro cap maxD m tris depth hf
      rw [buildP]
      by_cases hterm : tris.length ≤ cap ∨ maxD ≤ depth
      · rw [dif_pos hterm]
        trivial
      · rw [dif_neg hterm]
        simp only
        set b := computeAABB m tris with hb
        set a := pickAxis b with ha
        set pos := (b.min.getA a + b.max.getA a) / 2 with hpos
        by_cases hguard :
            (tris.filter fun t => (triBox m t).min.getA a ≤ pos).length =
              tris.length ∨
            (tris.filter fun t => pos ≤ (triBox m t).max.getA a).length =
              tris.length
        · rw [if_pos hguard]
          trivial
        · rw [if_neg hguard]
          push_neg at hguard
          obtain ⟨hgl, hgr⟩ := hguard
          obtain ⟨t1, ht1, hp1⟩ := exists_not_of_filter_length_ne tris _ hgl
          obtain ⟨t2, ht2, hp2⟩ := exists_not_of_filter_length_ne tris _ hgr
          have hlt1 : pos < (triBox m t1).min.getA a := by
            have := of_decide_eq_false hp1
            linarith [lt_of_not_le this]
          have hlt2 : (triBox m t2).max.getA a < pos := by
            have := of_decide_eq_false hp2
            linarith [lt_of_not_le this]
          have hub : (triBox m t1).max.getA a ≤ b.max.getA a :=
            le_computeAABB_max m tris t1 ht1 a
          have hlb : b.min.getA a ≤ (triBox m t2).min.getA a :=
            computeAABB_min_le m tris t2 ht2 a
          have hmm1 := triBox_min_le_max m t1 a
          have hmm2 := triBox_min_le_max m t2 a
          have hdep : maxD - (depth + 1) ≤ n := by omega
          refine ⟨extent_pickAxis_ge b, pickAxis_eq_y b, pickAxis_eq_z b,
            rfl, by linarith, by linarith, ?_, ?_⟩
          · exact ih cap maxD m _ (depth + 1) hdep
          · exact ih cap maxD m _ (depth + 1) hdep

/-- **C3**: for every internal node produced by the builder, the chosen
split axis maximises the extent of the node's own bounding box (ties broken
x, then y, then z), the split position is the midpoint of that axis's
extent, and it lies strictly within the box's extent along that axis. -/
theorem claim_C3_split_validity (m : Mesh) (tris : List Nat) (depth : Nat) :
    SplitOK m (build m tris (computeAABB m tris) depth) tris :=
  splitOK_buildP (bspMaxDepth - depth) bspLeafCap bspMaxDepth m tris depth le_rfl

/-- **C4**: the builder is deterministic: equal meshes, triangle sets,
boxes, depths and policy constants give trees with the same node count and
the same triangle assignment at every leaf. -/
theorem claim_C4_determinism (cap maxD : Nat) (m1 m2 : Mesh)
    (tris1 tris2 : List Nat) (box1 box2 : AABB) (d1 d2 : Nat)
    (hm : m1 = m2) (ht : tris1 = tris2) (hb : box1 = box2) (hd : d1 = d2) :
    nodeCount (buildP cap maxD m1 tris1 box1 d1) =
      nodeCount (buildP cap maxD m2 tris2 box2 d2) ∧
    leafLists (buildP cap maxD m1 tris1 box1 d1) =
      leafLists (buildP cap maxD m2 tris2 box2 d2) := by
  subst hm; subst ht; subst hb; subst hd
  exact ⟨rfl, rfl⟩

/-- Witness for C4 at the concrete two-triangle mesh. -/
theorem claim_C4_witness :
    twoTriMesh = twoTriMesh ∧
    nodeCount (buildP 4 20 twoTriMesh [0, 1] (computeAABB twoTriMesh [0, 1]) 0) =
      nodeCount (buildP 4 20 twoTriMesh [0, 1] (computeAABB twoTriMesh [0, 1]) 0) ∧
    leafLists (buildP 4 20 twoTriMesh [0, 1] (computeAABB twoTriMesh [0, 1]) 0) =
      leafLists (buildP 4 20 twoTriMesh [0, 1] (computeAABB twoTriMesh [0, 1]) 0) :=
  ⟨rfl, claim_C4_determinism 4 20 twoTriMesh twoTriMesh [0, 1] [0, 1]
    (computeAABB twoTriMesh [0, 1]) (computeAABB twoTriMesh [0, 1]) 0 0
    rfl rfl rfl rfl⟩

/-!
## Bind-group entry lists of the tree-consuming demo variants (claim C5)

Each list below transcribes, in source order, the `entries` array of the
`device.createBindGroup` call of one demo variant that consumes the
flattened BSP-tree buffers.
-/

/-- The resources that appear in the demos' bind groups. -/
inductive Resource where
  | uniformCam
  | uniformUI
  | aabbBuf
  | attribsBuf
  | positionsBuf
  | normalsBuf
  | indicesBuf
  | colorBuf
  | matIndicesBuf
  | lightIndicesBuf
  | treeIdsBuf
  | bspTreeBuf
  | bspPlanesBuf
  | jitterBuf
  | renderDstTex
  | envTex
deriving DecidableEq, Repr

/-- Rank of a resource in the spec's binding convention (§6): uniform
camera/view parameters, root AABB, vertex attributes, triangle indices,
material color (+emission) table, material-index-per-triangle,
light-triangle-index list, leaf-triangle-id array, node array, plane array.
Both uniform buffers carry camera/view parameters and share the first item.
Per-vertex normals, the jitter buffer and the textures are feature-specific
resources outside the convention's enumerated set, so they get no rank. -/
def convRank : Resource → Option Nat
  | .uniformCam => some 0
  | .uniformUI => some 0
  | .aabbBuf => some 1
  | .attribsBuf => some 2
  | .positionsBuf => some 2
  | .indicesBuf => some 3
  | .colorBuf => some 4
  | .matIndicesBuf => some 5
  | .lightIndicesBuf => some 6
  | .treeIdsBuf => some 7
  | .bspTreeBuf => some 8
  | .bspPlanesBuf => some 9
  | .normalsBuf => none
  | .jitterBuf => none
  | .renderDstTex => none
  | .envTex => none

/-- src/unnamed/part_002, `onReadComplete`. -/
def bindPart002 : List (Nat × Resource) :=
  [(0, .uniformCam), (1, .aabbBuf), (2, .attribsBuf), (3, .indicesBuf),
   (4, .colorBuf), (5, .lightIndicesBuf), (6, .treeIdsBuf), (7, .bspTreeBuf),
   (8, .bspPlanesBuf)]

/-- src/Project/source.js, first `main`, `onReadComplete`. -/
def bindProject1 : List (Nat × Resource) :=
  [(0, .uniformCam), (1, .uniformUI), (2, .aabbBuf), (3, .attribsBuf),
   (4, .indicesBuf), (5, .colorBuf), (6, .lightIndicesBuf), (7, .treeIdsBuf),
   (8, .bspTreeBuf), (9, .bspPlanesBuf), (11, .renderDstTex)]

/-- src/Project/source.js, second `main`, `onReadComplete`. -/
def bindProject2 : List (Nat × Resource) :=
  [(0, .uniformCam), (1, .uniformUI), (2, .aabbBuf), (3, .attribsBuf),
   (4, .indicesBuf), (5, .colorBuf), (6, .lightIndicesBuf), (7, .treeIdsBuf),
   (8, .bspTreeBuf), (9, .bspPlanesBuf), (11, .renderDstTex)]

/-- src/unnamed/part_007, `onReadComplete`. -/
def bindPart007 : List (Nat × Resource) :=
  [(0, .uniformCam), (1, .uniformUI), (2, .aabbBuf), (3, .attribsBuf),
   (4, .indicesBuf), (5, .colorBuf), (6, .lightIndicesBuf), (7, .treeIdsBuf),
   (8, .bspTreeBuf), (9, .bspPlanesBuf), (11, .renderDstTex)]

/-- src/w06/w06p01.js, `onReadComplete`; separate position/normal buffers
and a material-index buffer instead of an interleaved attribute buffer. -/
def bindW06p01 : List (Nat × Resource) :=
  [(0, .uniformCam), (1, .aabbBuf), (2, .positionsBuf), (3, .indicesBuf),
   (4, .normalsBuf), (5, .colorBuf), (6, .matIndicesBuf), (7, .treeIdsBuf),
   (8, .bspTreeBuf), (9, .bspPlanesBuf)]

/-- src/w06/w06p03.js, first `main`, `onReadComplete`; adds a jitter
buffer in the last slot. -/
def bindW06p03v1 : List (Nat × Resource) :=
  [(0, .uniformCam), (1, .aabbBuf), (2, .attribsBuf), (3, .indicesBuf),
   (4, .colorBuf), (5, .lightIndicesBuf), (6, .treeIdsBuf), (7, .bspTreeBuf),
   (8, .bspPlanesBuf), (9, .jitterBuf)]

/-- src/w06/w06p03.js, second `main`, `onReadComplete`; the light-index
binding is commented out and an environment texture is added. -/
def bindW06p03v2 : List (Nat × Resource) :=
  [(0, .uniformCam), (1, .uniformUI), (2, .aabbBuf), (3, .attribsBuf),
   (4, .indicesBuf), (5, .colorBuf), (7, .treeIdsBuf), (8, .bspTreeBuf),
   (9, .bspPlanesBuf), (11, .renderDstTex), (12, .envTex)]

/-- src/w06/w06p03.js, third `main`, `onReadComplete`. -/
def bindW06p03v3 : List (Nat × Resource) :=
  [(0, .uniformCam), (1, .uniformUI), (2, .aabbBuf), (3, .attribsBuf),
   (4, .indicesBuf), (5, .colorBuf), (7, .treeIdsBuf), (8, .bspTreeBuf),
   (9, .bspPlanesBuf), (11, .renderDstTex), (12, .envTex)]

/-- src/w07/w07p01.js, `onReadComplete`. -/
def bindW07p01 : List (Nat × Resource) :=
  [(0, .uniformCam), (1, .uniformUI), (2, .aabbBuf), (3, .attribsBuf),
   (4, .indicesBuf), (5, .colorBuf), (6, .lightIndicesBuf), (7, .treeIdsBuf),
   (8, .bspTreeBuf), (9, .bspPlanesBuf), (11, .renderDstTex)]

/-- All bind-group entry lists of demo variants that consume the flattened
tree buffers. -/
def treeBindGroups : List (List (Nat × Resource)) :=
  [bindPart002, bindProject1, bindProject2, bindPart007, bindW06p01,
   bindW06p03v1, bindW06p03v2, bindW06p03v3, bindW07p01]

/-- Adjacent-pairs check: the list ascends strictly. -/
def sortedLt : List Nat → Bool
  | [] => true
  | [_] => true
  | a :: b :: rest => a < b && sortedLt (b :: rest)

/-- Adjacent-pairs check: the list is non-decreasing. -/
def sortedLe : List Nat → Bool
  | [] => true
  | [_] => true
  | a :: b :: rest => a ≤ b && sortedLe (b :: rest)

/-- A bind-group entry list respects the convention: slot numbers strictly
ascend, the entries holding convention resources appear in non-decreasing
convention rank, and all three flattened-tree buffers are bound. -/
def bindGroupOK (l : List (Nat × Resource)) : Prop :=
  sortedLt (l.map Prod.fst) = true ∧
  sortedLe (l.filterMap fun e => convRank e.2) = true ∧
  Resource.treeIdsBuf ∈ l.map Prod.snd ∧
  Resource.bspTreeBuf ∈ l.map Prod.snd ∧
  Resource.bspPlanesBuf ∈ l.map Prod.snd

instance (l : List (Nat × Resource)) : Decidable (bindGroupOK l) :=
  inferInstanceAs (Decidable (_ = true ∧ _ = true ∧
    Resource.treeIdsBuf ∈ l.map Prod.snd ∧
    Resource.bspTreeBuf ∈ l.map Prod.snd ∧
    Resource.bspPlanesBuf ∈ l.map Prod.snd))

/-- **C5**: in every demo variant that consumes the flattened tree, the
bind group binds the convention's resources in the convention's relative
order by ascending binding slot number, even though absolute slot numbers
differ between variants; the flattened-tree buffers are always present. -/
theorem claim_C5_binding_order :
    ∀ l ∈ treeBindGroups, bindGroupOK l := by
  decide

/-- Witness for C5 at the part_002 bind group. -/
theorem claim_C5_witness :
    bindPart002 ∈ treeBindGroups ∧ bindGroupOK bindPart002 :=
  ⟨by decide, claim_C5_binding_order bindPart002 (by decide)⟩

/-!
## Material color tables (claim C6)
-/

/-- A 4-component color. -/
structure Rgba where
  r : ℚ
  g : ℚ
  b : ℚ
  a : ℚ
deriving DecidableEq, Repr

/-- A mesh material: base color and emission color, as supplied by the OBJ
reader. -/
structure MaterialRec where
  color : Rgba
  emission : Rgba
deriving DecidableEq, Repr

/-- The `matColors` loop of src/unnamed/part_002, src/w06/w06p01.js, the
first `main` of src/w06/w06p03.js and src/w07/w07p01.js: per material it
pushes the four componentwise sums `color + emission`. -/
def matColorsCombined (ms : List MaterialRec) : List ℚ :=
  ms.flatMap fun mat =>
    [mat.color.r + mat.emission.r, mat.color.g + mat.emission.g,
     mat.color.b + mat.emission.b, mat.color.a + mat.emission.a]

/-- The `matColors` loop of src/Project/source.js (both variants),
src/unnamed/part_007 and the env variants of src/w06/w06p03.js: per
material it pushes the four base-color components followed by the four
emission components. -/
def matColorsSeparate (ms : List MaterialRec) : List ℚ :=
  ms.flatMap fun mat =>
    [mat.color.r, mat.color.g, mat.color.b, mat.color.a,
     mat.emission.r, mat.emission.g, mat.emission.b, mat.emission.a]

/-- Default material used by the `getD` lookups below. -/
def matDefault : MaterialRec := ⟨⟨0, 0, 0, 0⟩, ⟨0, 0, 0, 0⟩⟩

/-- **C6 counterexample**: in the 4-float variants the uploaded table does
not convey base color and emission separately: two distinct materials - one
with a red base color and no emission, one with no base color and red
emission - produce identical tables. -/
theorem claim_C6_counterexample :
    matColorsCombined [⟨⟨1, 0, 0, 1⟩, ⟨0, 0, 0, 0⟩⟩] =
      matColorsCombined [⟨⟨0, 0, 0, 0⟩, ⟨1, 0, 0, 1⟩⟩] ∧
    (⟨⟨1, 0, 0, 1⟩, ⟨0, 0, 0, 0⟩⟩ : MaterialRec) ≠
      ⟨⟨0, 0, 0, 0⟩, ⟨1, 0, 0, 1⟩⟩ := by
  constructor
  · show [(1 : ℚ) + 0, 0 + 0, 0 + 0, 1 + 0] = [0 + 1, 0 + 0, 0 + 0, 0 + 1]
    norm_num
  · decide

/-- **C6 amended**: both table layouts contain exactly one record per
material, in materials-list order; in the 8-float variants the record is
the base color followed by the emission color, while in the 4-float
variants it is the componentwise sum `color + emission` (which does not
determine the two colors separately, per the counterexample). -/
theorem claim_C6_material_records (ms : List MaterialRec) :
    (matColorsSeparate ms).length = 8 * ms.length ∧
    (matColorsCombined ms).length = 4 * ms.length ∧
    ∀ i, i < ms.length →
      ((matColorsSeparate ms).drop (8 * i)).take 8 =
        [(ms.getD i matDefault).color.r, (ms.getD i matDefault).color.g,
         (ms.getD i matDefault).color.b, (ms.getD i matDefault).color.a,
         (ms.getD i matDefault).emission.r, (ms.getD i matDefault).emission.g,
         (ms.getD i matDefault).emission.b, (ms.getD i matDefault).emission.a] ∧
      ((matColorsCombined ms).drop (4 * i)).take 4 =
        [(ms.getD i matDefault).color.r + (ms.getD i matDefault).emission.r,
         (ms.getD i matDefault).color.g + (ms.getD i matDefault).emission.g,
         (ms.getD i matDefault).color.b + (ms.getD i matDefault).emission.b,
         (ms.getD i matDefault).color.a + (ms.getD i matDefault).emission.a] := by
  refine ⟨?_, ?_, ?_⟩
  · induction ms with
    | nil => rfl
    | cons mat ms ih =>
        have h1 : matColorsSeparate (mat :: ms) =
            [mat.color.r, mat.color.g, mat.color.b, mat.color.a,
             mat.emission.r, mat.emission.g, mat.emission.b,
             mat.emission.a] ++ matColorsSeparate ms := rfl
        rw [h1, List.length_append, ih, List.length_cons]
        simp only [List.length_cons, List.length_nil]
        ring
  · induction ms with
    | nil => rfl
    | cons mat ms ih =>
        have h1 : matColorsCombined (mat :: ms) =
            [mat.color.r + mat.emission.r, mat.color.g + mat.emission.g,
             mat.color.b + mat.emission.b, mat.color.a + mat.emission.a] ++
              matColorsCombined ms := rfl
        rw [h1, List.length_append, ih, List.length_cons]
        simp only [List.length_cons, List.length_nil]
        ring
  · intro i hi
    induction ms generalizing i with
    | nil => cases hi
    | cons mat ms ih =>
        cases i with
        | zero => exact ⟨rfl, rfl⟩
        | succ j =>
            have hj : j < ms.length := Nat.lt_of_succ_lt_succ hi
            have hgd : (mat :: ms).getD (j + 1) matDefault =
                ms.getD j matDefault := by
              simp [List.getD]
            have hS : (matColorsSeparate (mat :: ms)).drop (8 * (j + 1)) =
                (matColorsSeparate ms).drop (8 * j) := by
              have h1 : matColorsSeparate (mat :: ms) =
                  [mat.color.r, mat.color.g, mat.color.b, mat.color.a,
                   mat.emission.r, mat.emission.g, mat.emission.b,
                   mat.emission.a] ++ matColorsSeparate ms := rfl
              have h2 : 8 * (j + 1) =
                  ([mat.color.r, mat.color.g, mat.color.b, mat.color.a,
                    mat.emission.r, mat.emission.g, mat.emission.b,
                    mat.emission.a]).length + 8 * j := by
                simp only [List.length_cons, List.length_nil]
                ring
              rw [h1, h2, List.drop_append]
            have hC : (matColorsCombined (mat :: ms)).drop (4 * (j + 1)) =
                (matColorsCombined ms).drop (4 * j) := by
              have h1 : matColorsCombined (mat :: ms) =
                  [mat.color.r + mat.emission.r, mat.color.g + mat.emission.g,
                   mat.color.b + mat.emission.b,
                   mat.color.a + mat.emission.a] ++ matColorsCombined ms := rfl
              have h2 : 4 * (j + 1) =
                  ([mat.color.r + mat.emission.r, mat.color.g + mat.emission.g,
                    mat.color.b + mat.emission.b,
                    mat.color.a + mat.emission.a]).length + 4 * j := by
                simp only [List.length_cons, List.length_nil]
                ring
              rw [h1, h2, List.drop_append]
            rw [hgd, hS, hC]
            exact ih j hj

/-- Witness for the amended C6 at a concrete two-material list. -/
theorem claim_C6_witness :
    (1 : Nat) < 2 ∧
    ((matColorsSeparate [⟨⟨1, 0, 0, 1⟩, ⟨0, 0, 0, 0⟩⟩,
        ⟨⟨0, 1, 0, 1⟩, ⟨2, 2, 2, 1⟩⟩]).drop 8).take 8 =
      [0, 1, 0, 1, 2, 2, 2, 1] := by
  refine ⟨by decide, ?_⟩
  have h := (claim_C6_material_records
    [⟨⟨1, 0, 0, 1⟩, ⟨0, 0, 0, 0⟩⟩, ⟨⟨0, 1, 0, 1⟩, ⟨2, 2, 2, 1⟩⟩]).2.2 1
    (by decide)
  simpa using h.1

/-!
## Build-before-draw ordering (claim C7)
-/

/-- The observable steps of a demo's synchronous `main` body, through its
first render-pass submission. -/
inductive DemoEv where
  | readObj
  | buildBsp
  | mkBindGroup
  | beginPass
  | draw
  | submit
deriving DecidableEq, Repr

/-- Straight-line event trace of src/unnamed/part_002 up to the first
submitted render pass: read the OBJ file, then (inside `animate` →
`onReadComplete`) build the BSP tree and create the bind group, then
(inside `render`) encode the pass, draw and submit. -/
def tracePart002 : List DemoEv :=
  [.readObj, .buildBsp, .mkBindGroup, .beginPass, .draw, .submit]

/-- src/Project/source.js (first `main`): `onReadComplete` runs before
`animate()`/`render()`. -/
def traceProject1 : List DemoEv :=
  [.readObj, .buildBsp, .mkBindGroup, .beginPass, .draw, .submit]

/-- src/Project/source.js (second `main`). -/
def traceProject2 : List DemoEv :=
  [.readObj, .buildBsp, .mkBindGroup, .beginPass, .draw, .submit]

/-- src/unnamed/part_007. -/
def tracePart007 : List DemoEv :=
  [.readObj, .buildBsp, .mkBindGroup, .beginPass, .draw, .submit]

/-- src/w06/w06p01.js (`animate` = `onReadComplete` then `render`). -/
def traceW06p01 : List DemoEv :=
  [.readObj, .buildBsp, .mkBindGroup, .beginPass, .draw, .submit]

/-- src/w06/w06p03.js, first `main`. -/
def traceW06p03v1 : List DemoEv :=
  [.readObj, .buildBsp, .mkBindGroup, .beginPass, .draw, .submit]

/-- src/w06/w06p03.js, second `main`. -/
def traceW06p03v2 : List DemoEv :=
  [.readObj, .buildBsp, .mkBindGroup, .beginPass, .draw, .submit]

/-- src/w06/w06p03.js, third `main`. -/
def traceW06p03v3 : List DemoEv :=
  [.readObj, .buildBsp, .mkBindGroup, .beginPass, .draw, .submit]

/-- src/w07/w07p01.js. -/
def traceW07p01 : List DemoEv :=
  [.readObj, .buildBsp, .mkBindGroup, .beginPass, .draw, .submit]

/-- The traces of all nine tree-consuming demo variants. -/
def demoTraces : List (List DemoEv) :=
  [tracePart002, traceProject1, traceProject2, tracePart007, traceW06p01,
   traceW06p03v1, traceW06p03v2, traceW06p03v3, traceW07p01]

/-- The ordering demanded by claim C7: the BSP build finishes before the
first render pass is encoded, the bind group exists before the draw call,
and the draw call precedes the submission. -/
def buildBeforeDraw (tr : List DemoEv) : Prop :=
  DemoEv.buildBsp ∈ tr ∧ DemoEv.draw ∈ tr ∧
  tr.indexOf DemoEv.buildBsp < tr.indexOf DemoEv.beginPass ∧
  tr.indexOf DemoEv.mkBindGroup < tr.indexOf DemoEv.draw ∧
  tr.indexOf DemoEv.draw < tr.indexOf DemoEv.submit

instance (tr : List DemoEv) : Decidable (buildBeforeDraw tr) :=
  inferInstanceAs (Decidable (DemoEv.buildBsp ∈ tr ∧ DemoEv.draw ∈ tr ∧
    tr.indexOf DemoEv.buildBsp < tr.indexOf DemoEv.beginPass ∧
    tr.indexOf DemoEv.mkBindGroup < tr.indexOf DemoEv.draw ∧
    tr.indexOf DemoEv.draw < tr.indexOf DemoEv.submit))

/-- **C7**: in every demo variant, tree construction runs to completion
before the first render pass is encoded and submitted; no draw call is
issued before the flattened buffers exist and are bound. -/
theorem claim_C7_build_before_draw :
    ∀ tr ∈ demoTraces, buildBeforeDraw tr := by
  decide

/-- Witness for C7 at the part_002 trace. -/
theorem claim_C7_witness :
    tracePart002 ∈ demoTraces ∧ buildBeforeDraw tracePart002 :=
  ⟨by decide, claim_C7_build_before_draw tracePart002 (by decide)⟩

/-!
## Progressive accumulation frame logic (claim C8)

Models src/Project/source.js and src/unnamed/part_007 (the same loop also
appears in the env variants of src/w06/w06p03.js and in src/w07/w07p01.js):
`animate()` calls `render()` - whose accumulation attachment uses
`loadOp: frame === 0 ? "clear" : "load"` - and then, if `progressing`,
increments `frame` and schedules itself; the Progressive button toggles
`progressing` and calls `animate()` when turning it back on.
-/

/-- Mutable state of a progressive demo page: the `frame` counter and the
`progressing` flag. -/
structure ProgState where
  frame : Nat
  progressing : Bool
deriving DecidableEq, Repr

/-- The events that can fire on the page after start-up. -/
inductive PEvent where
  | animateStep
  | toggleClick
deriving DecidableEq, Repr

/-- One event step; the returned list holds, for each render pass issued
during the event, `true` when its accumulation attachment was cleared
(`frame === 0`) and `false` when it was loaded. -/
def runEvent : ProgState → PEvent → ProgState × List Bool
  | s, .animateStep =>
      (if s.progressing then ⟨s.frame + 1, s.progressing⟩ else s,
        [decide (s.frame = 0)])
  | s, .toggleClick =>
      if s.progressing then (⟨s.frame, false⟩, [])
      else (⟨s.frame + 1, true⟩, [decide (s.frame = 0)])

/-- Run a sequence of events, concatenating the clear/load flags of all
render passes issued. -/
def runEvents : ProgState → List PEvent → ProgState × List Bool
  | s, [] => (s, [])
  | s, e :: es =>
      let r1 := runEvent s e
      let r2 := runEvents r1.1 es
      (r2.1, r1.2 ++ r2.2)

/-- Page start-up state: `frame = 0`, `progressing = true`; the synchronous
`main` body then invokes `animate()` before any event can fire. -/
def progInit : ProgState := ⟨0, true⟩

theorem runEvent_frame_mono (s : ProgState) (e : PEvent) :
    s.frame ≤ (runEvent s e).1.frame := by
  cases e
  · simp only [runEvent]
    split <;> simp
  · simp only [runEvent]
    split <;> simp

theorem runEvents_frame_mono (es : List PEvent) : ∀ s : ProgState,
    s.frame ≤ (runEvents s es).1.frame := by
  induction es with
  | nil => intro s; simp [runEvents]
  | cons e es ih =>
      intro s
      exact le_trans (runEvent_frame_mono s e) (ih (runEvent s e).1)

theorem runEvent_flags_false (s : ProgState) (e : PEvent)
    (hs : 1 ≤ s.frame) : ∀ b ∈ (runEvent s e).2, b = false := by
  cases e
  · intro b hb
    simp only [runEvent, List.mem_singleton] at hb
    subst hb
    simp
    omega
  · intro b hb
    simp only [runEvent] at hb
    split at hb
    · simp at hb
    · simp only [List.mem_singleton] at hb
      subst hb
      simp
      omega

theorem runEvents_flags_false (es : List PEvent) : ∀ s : ProgState,
    1 ≤ s.frame → ∀ b ∈ (runEvents s es).2, b = false := by
  induction es with
  | nil =>
      intro s _ b hb
      simp [runEvents] at hb
  | cons e es ih =>
      intro s hs b hb
      simp only [runEvents, List.mem_append] at hb
      rcases hb with hb | hb
      · exact runEvent_flags_false s e hs b hb
      · exact ih (runEvent s e).1
          (le_trans hs (runEvent_frame_mono s e)) b hb

/-- **C8**: in the progressive demos, a render pass clears the accumulation
attachment exactly when `frame = 0`; the frame counter never decreases; and
along every possible event sequence that starts with the synchronous
start-up `animate()` call, the accumulation attachment is cleared exactly
once - by the very first render pass - and every later pass loads the
previous contents. -/
theorem claim_C8_progressive_clear_once (es : List PEvent) :
    (∀ s : ProgState, (runEvent s .animateStep).2 = [decide (s.frame = 0)]) ∧
    (∀ s : ProgState, s.frame ≤ (runEvents s es).1.frame) ∧
    (runEvents progInit (.animateStep :: es)).2 =
      true ::
        List.replicate ((runEvents progInit (.animateStep :: es)).2.length - 1)
          false := by
  refine ⟨fun s => rfl, runEvents_frame_mono es, ?_⟩
  have hstep : runEvents progInit (.animateStep :: es) =
      ((runEvents ⟨1, true⟩ es).1, [true] ++ (runEvents ⟨1, true⟩ es).2) := rfl
  rw [hstep]
  simp only [List.singleton_append, List.length_cons, Nat.add_sub_cancel]
  congr 1
  exact List.eq_replicate_iff.mpr
    ⟨rfl, runEvents_flags_false es ⟨1, true⟩ le_rfl⟩

/-!
## computeJitters (claim C9)

Models the `computeJitters(jitter, pixelSize, subdivs)` function of
src/w06/w06p03.js and src/w05/w05p01.js as the ordered list of
(index, value) writes it performs into the jitter array; `Math.random()`
is modelled as an arbitrary sequence of scalars in [0, 1), consumed in
call order.
-/

/-- The list of array writes performed by `computeJitters`: for
`subdivs < 2` it writes 0.0 to indices 0 and 1; otherwise, for each cell
(i, j) it writes `(random() + j) * step - pixelSize * 0.5` at index
`(i * subdivs + j) * 2` and `(random() + i) * step - pixelSize * 0.5` at
the next index, with `step = pixelSize / subdivs`. -/
def computeJitters (ps : ℚ) (subdivs : Nat) (rnd : Nat → ℚ) :
    List (Nat × ℚ) :=
  let step := ps / subdivs
  if subdivs < 2 then [(0, 0), (1, 0)]
  else
    (List.range subdivs).flatMap fun i =>
      (List.range subdivs).flatMap fun j =>
        [((i * subdivs + j) * 2,
           (rnd (2 * (i * subdivs + j)) + j) * step - ps / 2),
         ((i * subdivs + j) * 2 + 1,
           (rnd (2 * (i * subdivs + j) + 1) + i) * step - ps / 2)]

theorem flatMap_range_mul {α : Type} (n m : Nat) (g : Nat → List α) :
    ((List.range n).flatMap fun i =>
      (List.range m).flatMap fun j => g (i * m + j)) =
    (List.range (n * m)).flatMap g := by
  induction n with
  | zero => simp
  | succ k ih =>
      rw [List.range_succ, List.flatMap_append, ih, Nat.succ_mul,
        List.range_add, List.flatMap_append, List.flatMap_map,
        List.flatMap_singleton]

theorem flatMap_range_pair (k : Nat) :
    ((List.range k).flatMap fun t => [t * 2, t * 2 + 1]) =
      List.range (2 * k) := by
  induction k with
  | zero => rfl
  | succ n ih =>
      rw [List.range_succ, List.flatMap_append, ih, List.flatMap_singleton]
      have h2 : 2 * (n + 1) = (2 * n + 1) + 1 := by omega
      rw [h2, List.range_succ, List.range_succ, List.append_assoc]
      congr 1
      have hn : n * 2 = 2 * n := by ring
      rw [hn]
      rfl

/-- **C9**: for every pixel size > 0 and every `subdivs ≥ 2`,
`computeJitters` writes exactly `2·subdivs²` entries, at indices `0` through
`2·subdivs² - 1` in order, and every written value lies in
`[-pixelSize/2, pixelSize/2)`; for `subdivs < 2` it writes `0.0` to indices
0 and 1 only. -/
theorem claim_C9_computeJitters (ps : ℚ) (s : Nat) (rnd : Nat → ℚ)
    (hps : 0 < ps) (hrnd : ∀ n, 0 ≤ rnd n ∧ rnd n < 1) :
    (2 ≤ s →
      (computeJitters ps s rnd).map Prod.fst = List.range (2 * s ^ 2) ∧
      ∀ p ∈ computeJitters ps s rnd, -(ps / 2) ≤ p.2 ∧ p.2 < ps / 2) ∧
    (s < 2 → computeJitters ps s rnd = [(0, 0), (1, 0)]) := by
  constructor
  · intro hs
    have hnot : ¬s < 2 := by omega
    have hs0 : (0 : ℚ) < s := by
      have : (0 : Nat) < s := by omega
      exact_mod_cast this
    have hstep : 0 < ps / s := div_pos hps hs0
    constructor
    · show ((if s < 2 then _ else _ : List (Nat × ℚ)).map Prod.fst) = _
      rw [if_neg hnot]
      rw [List.map_flatMap]
      simp only [List.map_flatMap, List.map_cons, List.map_nil]
      have h2 : 2 * s ^ 2 = 2 * (s * s) := by ring
      rw [h2, ← flatMap_range_pair (s * s)]
      exact flatMap_range_mul s s (fun t => [t * 2, t * 2 + 1])
    · intro p hp
      have hp2 : p ∈ (List.range s).flatMap fun i =>
          (List.range s).flatMap fun j =>
            [((i * s + j) * 2,
               (rnd (2 * (i * s + j)) + (j : ℚ)) * (ps / s) - ps / 2),
             ((i * s + j) * 2 + 1,
               (rnd (2 * (i * s + j) + 1) + (i : ℚ)) * (ps / s) - ps / 2)] := by
        have : computeJitters ps s rnd =
            (List.range s).flatMap fun i =>
              (List.range s).flatMap fun j =>
                [((i * s + j) * 2,
                   (rnd (2 * (i * s + j)) + (j : ℚ)) * (ps / s) - ps / 2),
                 ((i * s + j) * 2 + 1,
                   (rnd (2 * (i * s + j) + 1) + (i : ℚ)) * (ps / s) - ps / 2)] := by
          show (if s < 2 then _ else _ : List (Nat × ℚ)) = _
          rw [if_neg hnot]
        rwa [this] at hp
      rw [List.mem_flatMap] at hp2
      obtain ⟨i, hi, hp3⟩ := hp2
      rw [List.mem_flatMap] at hp3
      obtain ⟨j, hj, hp4⟩ := hp3
      have hiS : (i : ℚ) + 1 ≤ s := by
        have : i + 1 ≤ s := List.mem_range.mp hi
        exact_mod_cast this
      have hjS : (j : ℚ) + 1 ≤ s := by
        have : j + 1 ≤ s := List.mem_range.mp hj
        exact_mod_cast this
      have hi0 : (0 : ℚ) ≤ i := Nat.cast_nonneg i
      have hj0 : (0 : ℚ) ≤ j := Nat.cast_nonneg j
      have key : ∀ (r c : ℚ), 0 ≤ r → r < 1 → 0 ≤ c → c + 1 ≤ s →
          -(ps / 2) ≤ (r + c) * (ps / s) - ps / 2 ∧
          (r + c) * (ps / s) - ps / 2 < ps / 2 := by
        intro r c hr0 hr1 hc0 hc1
        constructor
        · have : 0 ≤ (r + c) * (ps / s) :=
            mul_nonneg (by linarith) (le_of_lt hstep)
          linarith
        · have hlt : (r + c) * (ps / s) < s * (ps / s) := by
            apply mul_lt_mul_of_pos_right _ hstep
            linarith
          have heq : (s : ℚ) * (ps / s) = ps := by
            field_simp
          linarith [heq ▸ hlt]
      simp only [List.mem_cons, List.not_mem_nil, or_false] at hp4
      rcases hp4 with h | h
      · subst h
        exact key _ _ (hrnd _).1 (hrnd _).2 hj0 hjS
      · subst h
        exact key _ _ (hrnd _).1 (hrnd _).2 hi0 hiS
  · intro hs
    show (if s < 2 then _ else _ : List (Nat × ℚ)) = _
    rw [if_pos hs]

/-- Witness for C9 at pixel size 1, 2x2 subdivisions and the constant
random source 1/2. -/
theorem claim_C9_witness :
    (0 : ℚ) < 1 ∧ (∀ n : Nat, 0 ≤ (fun _ : Nat => (1 : ℚ) / 2) n ∧
      (fun _ : Nat => (1 : ℚ) / 2) n < 1) ∧ (2 : Nat) ≤ 2 ∧
    (computeJitters 1 2 (fun _ => 1 / 2)).map Prod.fst =
      List.range (2 * 2 ^ 2) :=
  ⟨by norm_num, fun n => by norm_num, le_rfl,
    ((claim_C9_computeJitters 1 2 (fun _ => 1 / 2) (by norm_num)
      (fun n => by norm_num)).1 le_rfl).1⟩

/-!
## Float32Array versus Uint32Array UI-uniform writes (claim C10)

The initial write in the progressive demos is
`new Float32Array([canvas.width, canvas.height, frame])` with `frame = 0`;
every per-frame update is `new Uint32Array([canvas.width, canvas.height,
frame])`.  A `Float32Array` element stores the IEEE-754 binary32
(round-to-nearest-even) bit pattern of the value; a `Uint32Array` element
stores the value modulo 2^32.  Both are serialized little-endian, four
bytes per element.
-/

/-- Fuel-bounded binary logarithm; `log2fuel f n` is `⌊log2 n⌋` whenever
`1 ≤ n < 2 ^ f`. -/
def log2fuel : Nat → Nat → Nat
  | 0, _ => 0
  | fuel + 1, n => if n ≤ 1 then 0 else log2fuel fuel (n / 2) + 1

/-- `⌊log2 n⌋` for `1 ≤ n < 2 ^ 64` (every value a demo can write). -/
def ilog2 (n : Nat) : Nat := log2fuel 64 n

/-- The IEEE-754 binary32 bit pattern a `Float32Array` element stores for a
natural number `n < 2 ^ 64`: zero maps to the zero pattern; a value whose
leading binary digit is at position `e ≤ 23` is exact, with biased exponent
`127 + e` and mantissa `n·2^(23-e) - 2^23`; larger values round the
mantissa to nearest, ties to even, carrying into the exponent when the
rounded mantissa overflows. -/
def float32bits (n : Nat) : Nat :=
  if n = 0 then 0
  else
    let e := ilog2 n
    if e ≤ 23 then
      (126 + e) * 2 ^ 23 + n * 2 ^ (23 - e)
    else
      let shift := e - 23
      let q := n / 2 ^ shift
      let rem := n % 2 ^ shift
      let half := 2 ^ (shift - 1)
      let q2 := if half < rem ∨ (rem = half ∧ q % 2 = 1) then q + 1 else q
      if q2 = 2 ^ 24 then (128 + e) * 2 ^ 23
      else (126 + e) * 2 ^ 23 + q2

/-- Little-endian byte quadruple of a 32-bit buffer element. -/
def wordBytes (w : Nat) : List Nat :=
  [w % 256, w / 256 % 256, w / 65536 % 256, w / 16777216 % 256]

/-- Bytes of a whole buffer, one 32-bit element after another. -/
def bufferBytes (ws : List Nat) : List Nat := ws.flatMap wordBytes

/-- The three 32-bit elements the initial `Float32Array` write puts into
the UI uniform buffer: width, height and frame 0, all as binary32. -/
def uiInitialWords (w h : Nat) : List Nat :=
  [float32bits w, float32bits h, float32bits 0]

/-- The three 32-bit elements a per-frame `Uint32Array` update writes:
width, height and the frame counter, each modulo 2^32. -/
def uiUpdateWords (w h frame : Nat) : List Nat :=
  [w % 2 ^ 32, h % 2 ^ 32, frame % 2 ^ 32]

theorem log2fuel_spec : ∀ (fuel n : Nat), 1 ≤ n → n < 2 ^ fuel →
    2 ^ log2fuel fuel n ≤ n ∧ n < 2 ^ (log2fuel fuel n + 1) := by
  intro fuel
  induction fuel with
  | zero =>
      intro n h1 h2
      simp at h2
      omega
  | succ k ih =>
      intro n h1 h2
      simp only [log2fuel]
      by_cases hn : n ≤ 1
      · rw [if_pos hn]
        constructor
        · simpa using h1
        · have : n = 1 := by omega
          simp [this]
      · rw [if_neg hn]
        have hpow : (2 : Nat) ^ (k + 1) = 2 ^ k * 2 := by rw [pow_succ]
        have h2' : n / 2 < 2 ^ k := by omega
        have h1' : 1 ≤ n / 2 := by omega
        obtain ⟨hlo, hhi⟩ := ih (n / 2) h1' h2'
        constructor
        · rw [pow_succ]
          omega
        · rw [pow_succ]
          omega

/-- For `0 < n < 2^24` the leading digit position is at most 23. -/
theorem ilog2_le_23 (n : Nat) (h1 : 0 < n) (h24 : n < 2 ^ 24) :
    ilog2 n ≤ 23 := by
  have h64 : n < 2 ^ 64 := lt_trans h24 (by norm_num)
  obtain ⟨hlo, -⟩ := log2fuel_spec 64 n h1 h64
  have hlo2 : 2 ^ ilog2 n ≤ n := hlo
  by_contra hgt
  push_neg at hgt
  have hpow : (2 : Nat) ^ 24 ≤ 2 ^ ilog2 n :=
    Nat.pow_le_pow_right (by norm_num) (by omega)
  omega

/-- For `0 < n < 2^24` the encoder takes the exact branch. -/
theorem float32bits_small (n : Nat) (h1 : 0 < n) (h24 : n < 2 ^ 24) :
    float32bits n = (126 + ilog2 n) * 2 ^ 23 + n * 2 ^ (23 - ilog2 n) := by
  unfold float32bits
  rw [if_neg (by omega)]
  simp only
  rw [if_pos (ilog2_le_23 n h1 h24)]

/-- Every nonzero value's binary32 pattern is at least `126·2^23`
(the pattern of 2⁻¹), regardless of which branch computes it. -/
theorem float32bits_lower (n : Nat) (h1 : 0 < n) :
    126 * 2 ^ 23 ≤ float32bits n := by
  unfold float32bits
  rw [if_neg (by omega)]
  simp only
  have hx : 126 * 2 ^ 23 ≤ (126 + ilog2 n) * 2 ^ 23 :=
    Nat.mul_le_mul_right _ (by omega)
  have hy : 126 * 2 ^ 23 ≤ (128 + ilog2 n) * 2 ^ 23 :=
    Nat.mul_le_mul_right _ (by omega)
  split_ifs
  · exact le_trans hx (Nat.le_add_right _ _)
  · exact hy
  · exact le_trans hx (Nat.le_add_right _ _)
  · exact hy
  · exact le_trans hx (Nat.le_add_right _ _)

/-- For `0 < n < 2^24` the binary32 pattern fits in 32 bits. -/
theorem float32bits_small_lt (n : Nat) (h1 : 0 < n) (h24 : n < 2 ^ 24) :
    float32bits n < 2 ^ 32 := by
  rw [float32bits_small n h1 h24]
  have he := ilog2_le_23 n h1 h24
  have h64 : n < 2 ^ 64 := lt_trans h24 (by norm_num)
  obtain ⟨-, hhi⟩ := log2fuel_spec 64 n h1 h64
  have hhi2 : n < 2 ^ (ilog2 n + 1) := hhi
  have hmant : n * 2 ^ (23 - ilog2 n) < 2 ^ 24 := by
    calc n * 2 ^ (23 - ilog2 n)
        < 2 ^ (ilog2 n + 1) * 2 ^ (23 - ilog2 n) :=
          (Nat.mul_lt_mul_right (Nat.pos_pow_of_pos _ (by norm_num))).mpr hhi2
      _ = 2 ^ 24 := by
          rw [← pow_add]
          congr 1
          omega
  have hexp : (126 + ilog2 n) * 2 ^ 23 ≤ 149 * 2 ^ 23 :=
    Nat.mul_le_mul_right _ (by omega)
  omega

/-- Equal byte quadruples force equal 32-bit residues. -/
theorem wordBytes_inj_mod (w v : Nat) (h : wordBytes w = wordBytes v) :
    w % 2 ^ 32 = v % 2 ^ 32 := by
  simp only [wordBytes, List.cons.injEq, and_true] at h
  obtain ⟨h0, h1, h2, h3⟩ := h
  omega

/-- **C10 counterexample**: a field value whose `Float32Array` bytes and
`Uint32Array` bytes coincide although it is not zero (its binary32 pattern
is the number itself), refuting "identical bytes only when the value is
0" as a universal statement over field values. -/
theorem claim_C10_counterexample :
    wordBytes (float32bits 1318926965) = wordBytes (1318926965 % 2 ^ 32) ∧
    (1318926965 : Nat) ≠ 0 := by
  constructor
  · decide
  · decide

/-- **C10 amended**: for every field value below `2^24` - which covers
every real canvas dimension and the initial frame counter 0, the first
float/uint byte coincidence being at 1318926965 - the two encodings
produce identical bytes exactly when the value is 0; hence for any
positive canvas width below `2^24` the UI-uniform buffer bytes written
before the first animate step differ from the `Uint32Array` bytes of every
later update. -/
theorem claim_C10_initial_write_differs (w h f : Nat) (hw : 0 < w)
    (hw24 : w < 2 ^ 24) :
    (∀ v, v < 2 ^ 24 → (float32bits v = v % 2 ^ 32 ↔ v = 0)) ∧
    bufferBytes (uiInitialWords w h) ≠ bufferBytes (uiUpdateWords w h f) := by
  have hiff : ∀ v, v < 2 ^ 24 → (float32bits v = v % 2 ^ 32 ↔ v = 0) := by
    intro v hv
    constructor
    · intro hfv
      by_contra hv0
      have hlow := float32bits_lower v (Nat.pos_of_ne_zero hv0)
      have hmod : v % 2 ^ 32 = v := Nat.mod_eq_of_lt (by omega)
      omega
    · rintro rfl
      simp [float32bits]
  refine ⟨hiff, ?_⟩
  intro heq
  have h4 : (bufferBytes (uiInitialWords w h)).take 4 =
      (bufferBytes (uiUpdateWords w h f)).take 4 := by rw [heq]
  have e1 : (bufferBytes (uiInitialWords w h)).take 4 =
      wordBytes (float32bits w) := rfl
  have e2 : (bufferBytes (uiUpdateWords w h f)).take 4 =
      wordBytes (w % 2 ^ 32) := rfl
  rw [e1, e2] at h4
  have hmod := wordBytes_inj_mod _ _ h4
  have hflt := float32bits_small_lt w hw hw24
  have hfix : float32bits w = w := by
    have h1 : float32bits w % 2 ^ 32 = float32bits w := Nat.mod_eq_of_lt hflt
    have h2 : (w % 2 ^ 32) % 2 ^ 32 = w := by
      have : w % 2 ^ 32 = w := Nat.mod_eq_of_lt (by omega)
      rw [this, this]
    omega
  have hlow := float32bits_lower w hw
  omega

/-- Witness for the amended C10 at a concrete 800 x 600 canvas. -/
theorem claim_C10_witness :
    (0 : Nat) < 800 ∧ (800 : Nat) < 2 ^ 24 ∧
    ((∀ v, v < 2 ^ 24 → (float32bits v = v % 2 ^ 32 ↔ v = 0)) ∧
      bufferBytes (uiInitialWords 800 600) ≠
        bufferBytes (uiUpdateWords 800 600 1)) :=
  ⟨by decide, by decide,
    claim_C10_initial_write_differs 800 600 1 (by decide) (by decide)⟩

end Rendering
